import Mathlib

/-!
Verification of the Resume-JD-Matcher core against its specification.

Text is modelled as `List Char`. Python machine integers are modelled as
`Nat`/`Int` (the program only ever handles whole years, levels, counts and
day counts; the `float(...)` round trips in the source are applied to whole
numbers, so exact integer arithmetic is the faithful reading). Python
`int(x)` on a non-negative quotient is floor division, modelled by `Nat`
division. Fallible code returns `Option`/`Except`.

Source files embedded here: `json_parser.py`, `matching_engine.py`,
`skills_analogy.py`.
-/

set_option maxRecDepth 100000

namespace S2P

/-! ## Basic character/string helpers (Python `str` operations) -/

/-- Python whitespace recognised by `str.strip` (ASCII subset, which covers
every character the program ever feeds it). -/
def pyWs (c : Char) : Bool :=
  c = ' ' || c = '\t' || c = '\n' || c = '\r' || c = '\x0b' || c = '\x0c'

/-- Python `str.strip()`: drop leading and trailing whitespace. -/
def stripChars (s : List Char) : List Char :=
  ((s.dropWhile pyWs).reverse.dropWhile pyWs).reverse

/-- Python `re.sub(pat + r'\n?', '', s)` for a literal pattern `pat`:
scan left to right, removing each non-overlapping occurrence of `pat`
together with one directly following newline (the regex is greedy).
Structural recursion on a fuel argument (each step consumes at least one
character, so fuel = length suffices; `reSubOptNl` supplies it). -/
def reSubOptNlF (pat : List Char) : ℕ → List Char → List Char
  | 0, s => s
  | _ + 1, [] => []
  | fuel + 1, c :: cs =>
    if pat ≠ [] ∧ pat.isPrefixOf (c :: cs) then
      if (cs.drop (pat.length - 1)).head? = some '\n' then
        reSubOptNlF pat fuel (cs.drop pat.length)
      else
        reSubOptNlF pat fuel (cs.drop (pat.length - 1))
    else
      c :: reSubOptNlF pat fuel cs

def reSubOptNl (pat : List Char) (s : List Char) : List Char :=
  reSubOptNlF pat s.length s

/-! ## `json_parser.extract_json_string` (lines 14-55) -/

/-- The preprocessing of `extract_json_string` (json_parser.py lines 27-32):
strip, remove markdown fences (the backtick is written `\x60`), then remove
every remaining backtick run. -/
def preprocess (s : List Char) : List Char :=
  let t := stripChars s
  let t := reSubOptNl ("\x60\x60\x60json".toList) t
  let t := reSubOptNl ("\x60\x60\x60".toList) t
  t.filter (fun c => c ≠ '\x60')

/-- `str.rfind`-style search: index of the last character satisfying `p`. -/
def rfindIdx (p : Char → Bool) (s : List Char) : Option ℕ :=
  match s.reverse.findIdx? p with
  | some i => some (s.length - 1 - i)
  | none => none

/-- The incomplete-last-field removal of `auto_complete_json`
(json_parser.py lines 72-78): if the text after the last comma is short and
has an odd number of quotes, cut the text at that comma. -/
def acBase (pj : List Char) : List Char :=
  match rfindIdx (fun c => c = ',') pj with
  | some i =>
    let after := stripChars (pj.drop i)
    if after.length < 100 ∧ '"' ∈ after ∧ after.count '"' % 2 ≠ 0 then
      pj.take i
    else pj
  | none => pj

/-- `json_parser.auto_complete_json` (lines 58-93): drop a dangling field,
then append one `]` per unmatched `[` followed by one closing brace per
unmatched opening brace — brackets strictly before braces. -/
def auto_complete_json (partial_json : List Char) : List Char :=
  let pj := acBase partial_json
  let ob : ℤ := (pj.count '\x7b' : ℤ) - (pj.count '\x7d' : ℤ)
  let ok : ℤ := (pj.count '[' : ℤ) - (pj.count ']' : ℤ)
  pj ++ List.replicate ok.toNat ']' ++ List.replicate ob.toNat '\x7d'

/-- `json_parser.extract_json_string` (lines 14-55). Returns `none` for the
Python `return None` paths. -/
def extract_json_string (response_text : List Char) : Option (List Char) :=
  if response_text = [] then none
  else
    let t := preprocess response_text
    match t.findIdx? (fun c => c = '\x7b') with
    | none => none
    | some start =>
      match rfindIdx (fun c => c = '\x7d') t with
      | none =>
        let j := auto_complete_json (t.drop start)
        if j = [] then none else some j
      | some e =>
        if start ≥ e then none
        else some ((t.take (e + 1)).drop start)

/-! ## `json_parser.aggressive_json_recovery` (lines 166-214) -/

/-- The balanced-checkpoint scan of `aggressive_json_recovery`
(lines 185-201): fold over the characters tracking brace and bracket depth
and the last index at which both depths are non-negative. -/
def aggScan (s : List Char) : ℕ :=
  (s.foldl
    (fun (st : ℤ × ℤ × ℕ × ℕ) c =>
      let db := if c = '\x7b' then st.1 + 1 else if c = '\x7d' then st.1 - 1 else st.1
      let dk := if c = '[' then st.2.1 + 1 else if c = ']' then st.2.1 - 1 else st.2.1
      let last := if db ≥ 0 ∧ dk ≥ 0 then st.2.2.2 else st.2.2.1
      (db, dk, last, st.2.2.2 + 1))
    (0, 0, 0, 0)).2.2.1

/-- The truncation part of `aggressive_json_recovery` (lines 179-204):
drop any text before the first opening brace (only when it is not at
position 0, mirroring `if start > 0`), then cut at the last balanced
checkpoint. -/
def aggBase (json_str : List Char) : List Char :=
  let s :=
    match json_str.findIdx? (fun c => c = '\x7b') with
    | some i => if i > 0 then json_str.drop i else json_str
    | none => json_str
  s.take (aggScan s + 1)

/-- `json_parser.aggressive_json_recovery` (lines 166-214): truncate to the
last balanced checkpoint, then append one closing brace per unmatched
opening brace followed by one `]` per unmatched `[` — braces strictly
before brackets (the reverse of `auto_complete_json`). The source guards
the append with `open_braces > 0 or open_brackets > 0`; appending
`toNat`-many is the same, since a non-positive excess contributes an empty
replicate. -/
def aggressive_json_recovery (json_str : List Char) : List Char :=
  let s := aggBase json_str
  let ob : ℤ := (s.count '\x7b' : ℤ) - (s.count '\x7d' : ℤ)
  let ok : ℤ := (s.count '[' : ℤ) - (s.count ']' : ℤ)
  s ++ List.replicate ob.toNat '\x7d' ++ List.replicate ok.toNat ']'

/-! ## Strict JSON validity (the contract of Python `json.loads`)

`try_parse_json` hands the recovered text to `json.loads`; "parses
strictly as JSON" in the specification means `json.loads` succeeds. The
recogniser below implements the RFC 8259 grammar that `json.loads`
accepts. Each parser returns the unconsumed remainder on success. A fuel
argument (instantiated with the input length plus one, which is ample
since every recursive descent consumes at least one character first)
makes the mutual recursion structural. -/

/-- JSON insignificant whitespace. -/
def jskipWs (s : List Char) : List Char :=
  s.dropWhile (fun c => c = ' ' || c = '\t' || c = '\n' || c = '\r')

/-- Hexadecimal digit test for `\uXXXX` escapes. -/
def isHexDigit (c : Char) : Bool :=
  (('0' ≤ c) && (c ≤ '9')) || (('a' ≤ c) && (c ≤ 'f')) || (('A' ≤ c) && (c ≤ 'F'))

/-- Body of a JSON string, after the opening quote has been consumed.
Fuel-structured; each step consumes at least one character. -/
def jstrBodyF : ℕ → List Char → Option (List Char)
  | 0, _ => none
  | _ + 1, [] => none
  | _ + 1, '"' :: rest => some rest
  | fuel + 1, '\\' :: e :: rest =>
    if e = 'u' then
      match rest with
      | h1 :: h2 :: h3 :: h4 :: rest' =>
        if isHexDigit h1 && isHexDigit h2 && isHexDigit h3 && isHexDigit h4 then
          jstrBodyF fuel rest'
        else none
      | _ => none
    else if e = '"' || e = '\\' || e = '/' || e = 'b' || e = 'f' || e = 'n' || e = 'r' || e = 't' then
      jstrBodyF fuel rest
    else none
  | fuel + 1, c :: rest => if c.toNat ≥ 32 then jstrBodyF fuel rest else none

def jstrBody (s : List Char) : Option (List Char) := jstrBodyF s.length s

/-- A JSON string literal, starting at the opening quote. -/
def jstr : List Char → Option (List Char)
  | '"' :: rest => jstrBody rest
  | _ => none

def jdigit (c : Char) : Bool := ('0' ≤ c) && (c ≤ '9')

/-- One-or-more decimal digits. -/
def jdigits1 (s : List Char) : Option (List Char) :=
  match s with
  | c :: rest => if jdigit c then some (rest.dropWhile jdigit) else none
  | [] => none

/-- A JSON number: optional minus, integer part without leading zeros,
optional fraction, optional exponent. -/
def jnum (s : List Char) : Option (List Char) :=
  let s := match s with
    | '-' :: rest => rest
    | _ => s
  let int? : Option (List Char) :=
    match s with
    | '0' :: rest => some rest
    | c :: rest => if jdigit c && c ≠ '0' then some (rest.dropWhile jdigit) else none
    | [] => none
  match int? with
  | none => none
  | some s =>
    let s :=
      match s with
      | '.' :: rest =>
        match jdigits1 rest with
        | some s' => some s'
        | none => none
      | _ => some s
    match s with
    | none => none
    | some s =>
      match s with
      | e :: rest =>
        if e = 'e' || e = 'E' then
          let rest := match rest with
            | '+' :: r => r
            | '-' :: r => r
            | _ => rest
          jdigits1 rest
        else some (e :: rest)
      | [] => some []

/-- The three recursive states of the value grammar: a value, the
members of an object after its opening brace (non-empty case), the
elements of an array after its opening bracket (non-empty case). -/
inductive JMode where
  | val
  | members
  | elems

/-- The recursive descent over the JSON grammar, structural on fuel
(every recursive call consumes input, so length + 1 fuel is ample). -/
def jparse : ℕ → JMode → List Char → Option (List Char)
  | 0, _, _ => none
  | fuel + 1, .val, s0 =>
    let s := jskipWs s0
    match s with
    | '\x7b' :: rest =>
      (match jskipWs rest with
       | '\x7d' :: r2 => some r2
       | s' => jparse fuel .members s')
    | '[' :: rest =>
      (match jskipWs rest with
       | ']' :: r2 => some r2
       | s' => jparse fuel .elems s')
    | '"' :: rest => jstrBody rest
    | 't' :: 'r' :: 'u' :: 'e' :: rest => some rest
    | 'f' :: 'a' :: 'l' :: 's' :: 'e' :: rest => some rest
    | 'n' :: 'u' :: 'l' :: 'l' :: rest => some rest
    | _ => jnum s
  | fuel + 1, .members, s =>
    match jstr (jskipWs s) with
    | none => none
    | some s1 =>
      match jskipWs s1 with
      | ':' :: s2 =>
        (match jparse fuel .val s2 with
         | none => none
         | some s3 =>
           match jskipWs s3 with
           | ',' :: s4 => jparse fuel .members s4
           | '\x7d' :: s4 => some s4
           | _ => none)
      | _ => none
  | fuel + 1, .elems, s =>
    match jparse fuel .val s with
    | none => none
    | some s1 =>
      match jskipWs s1 with
      | ',' :: s2 => jparse fuel .elems s2
      | ']' :: s2 => some s2
      | _ => none

/-- Whether `json.loads` accepts the text: one JSON value followed only by
whitespace. -/
def jsonValid (s : List Char) : Bool :=
  match jparse (s.length + 1) .val s with
  | some rest => jskipWs rest = []
  | none => false

/-! ## Parsed JSON values and Python dict operations

`clean_json_response` produces a Python object parsed from JSON text; the
schema-normalisation functions manipulate it as a dict. JSON numbers are
modelled as integers (the schemas only carry whole years, and every claim
concerns those). Dicts are association lists in insertion order with
unique keys; assignment updates the first matching key in place, as a
Python dict does. -/

inductive Json where
  | null
  | bool (b : Bool)
  | num (n : ℤ)
  | str (s : String)
  | arr (elems : List Json)
  | obj (fields : List (String × Json))

def Json.isNull : Json → Bool
  | .null => true
  | _ => false

/-- Python truthiness of a parsed JSON value. -/
def jsonTruthy : Json → Bool
  | .null => false
  | .bool b => b
  | .num n => n ≠ 0
  | .str s => s ≠ ""
  | .arr l => ¬ l.isEmpty
  | .obj f => ¬ f.isEmpty

/-- Python `data.get(k)` / `data[k]` on a dict. -/
def dictGet (k : String) : List (String × Json) → Option Json
  | [] => none
  | (k', v) :: rest => if k' = k then some v else dictGet k rest

/-- Python `data[k] = v` on a dict: update in place, or append a new key. -/
def dictSet (k : String) (v : Json) : List (String × Json) → List (String × Json)
  | [] => [(k, v)]
  | (k', v') :: rest => if k' = k then (k', v) :: rest else (k', v') :: dictSet k v rest

/-- Python `str.strip()` on a Lean `String`. -/
def pyStripS (s : String) : String := String.mk (stripChars s.toList)

mutual

/-- Python `str(v)` for a parsed JSON value. Scalars are rendered exactly
(`None`, `True`, `False`, decimal integers, the string itself). Container
rendering approximates Python's `repr`-based formatting; no claim depends
on it — the program only stringifies containers on their way into
`float(...)`, which fails on the brackets either way, or into skill lists,
where only truthiness and non-emptiness after stripping matter. -/
def pyStr : Json → String
  | .null => "None"
  | .bool true => "True"
  | .bool false => "False"
  | .num n => toString n
  | .str s => s
  | .arr xs => "[" ++ pyStrList xs ++ "]"
  | .obj fs => "\x7b" ++ pyStrFields fs ++ "\x7d"

def pyStrList : List Json → String
  | [] => ""
  | [x] => pyStr x
  | x :: y :: xs => pyStr x ++ ", " ++ pyStrList (y :: xs)

def pyStrFields : List (String × Json) → String
  | [] => ""
  | [(k, v)] => "\x27" ++ k ++ "\x27: " ++ pyStr v
  | (k, v) :: f :: fs => "\x27" ++ k ++ "\x27: " ++ pyStr v ++ ", " ++ pyStrFields (f :: fs)

end

/-- Digit run to a natural number. -/
def digitsVal (ds : List Char) : ℕ :=
  ds.foldl (fun a c => 10 * a + (c.toNat - 48)) 0

/-- Python `float(s)` on decimal notation: optional sign, digits with an
optional fraction and exponent, surrounding whitespace allowed. Returns
`none` where `float` raises `ValueError` (which the source converts to 0).
Exotic accepted spellings (`inf`, `nan`, digit-group underscores) are not
produced by this program's data and `int()` of `inf`/`nan` raises anyway,
matching the `none` fallback. -/
def parseFloatQ (s0 : List Char) : Option ℚ :=
  let s := stripChars s0
  let (sign, s) : ℚ × List Char :=
    match s with
    | '-' :: rest => (-1, rest)
    | '+' :: rest => (1, rest)
    | _ => (1, s)
  let ip := s.takeWhile jdigit
  let s := s.dropWhile jdigit
  let (fp, s) : List Char × List Char :=
    match s with
    | '.' :: rest => (rest.takeWhile jdigit, rest.dropWhile jdigit)
    | _ => ([], s)
  if ip.isEmpty ∧ fp.isEmpty then none
  else
    let mant : ℚ := (digitsVal ip : ℚ) + (digitsVal fp : ℚ) / ((10 : ℚ) ^ fp.length)
    match s with
    | [] => some (sign * mant)
    | e :: rest =>
      if e = 'e' ∨ e = 'E' then
        let (esign, rest) : ℤ × List Char :=
          match rest with
          | '-' :: r => (-1, r)
          | '+' :: r => (1, r)
          | _ => (1, rest)
        let ed := rest.takeWhile jdigit
        if ed.isEmpty ∨ ¬ (rest.dropWhile jdigit).isEmpty then none
        else some (sign * mant * (10 : ℚ) ^ (esign * digitsVal ed))
      else none

/-- Python `int(q)`: truncation toward zero. -/
def pyTrunc (q : ℚ) : ℤ := q.num / (q.den : ℤ)

/-- `int(float(str(val).replace(',', '')))` with the source's
`except: 0` fallback (json_parser.py lines 339-341 and 374-376). -/
def pyToIntOr0 (v : Json) : ℤ :=
  match parseFloatQ (((pyStr v).toList).filter (fun c => c ≠ ',')) with
  | some q => pyTrunc q
  | none => 0

/-! ## `json_parser` schema normalisation (lines 292-445) -/

inductive DocType where
  | resume
  | jd

/-- `json_parser.get_default_structure` (lines 292-315). -/
def get_default_structure : DocType → List (String × Json)
  | .jd =>
    [("jobTitle", .str "Not extracted"),
     ("requiredSkills", .arr []),
     ("minExperienceYears", .num 0),
     ("requiredEducation", .str "Not specified"),
     ("preferredSkills", .arr []),
     ("description", .null),
     ("responsibilities", .arr []),
     ("benefits", .arr [])]
  | .resume =>
    [("role", .str "Not extracted"),
     ("totalYearsExperience", .num 0),
     ("experienceDetails", .arr []),
     ("skills", .arr []),
     ("education", .arr []),
     ("certifications", .arr []),
     ("summary", .str "Error parsing this document")]

/-- The resume skills clean-up of `validate_data_types` (lines 349-356):
keep dict entries whose `name` is present and truthy, wrap non-empty bare
strings, drop everything else. -/
def validateSkillsList (l : List Json) : List Json :=
  l.filterMap (fun sk =>
    match sk with
    | .obj d =>
      match dictGet "name" d with
      | some v => if jsonTruthy v then some (.obj d) else none
      | none => none
    | .str s => if pyStripS s ≠ "" then some (.obj [("name", .str (pyStripS s))]) else none
    | _ => none)

/-- `if k not in data or not isinstance(data[k], list): data[k] = []`. -/
def ensureList (k : String) (d : List (String × Json)) : List (String × Json) :=
  match dictGet k d with
  | some (.arr _) => d
  | _ => dictSet k (.arr []) d

/-- The JD skill-list element clean-up (lines 382-385 and 391-394):
`str(s).strip() for s in ... if s and str(s).strip()`. -/
def validateStrSkill (v : Json) : Option Json :=
  if jsonTruthy v ∧ pyStripS (pyStr v) ≠ "" then some (.str (pyStripS (pyStr v))) else none

/-- The whole-number coercion step shared by the Resume
`totalYearsExperience` validation (lines 333-343) and the JD
`minExperienceYears` validation (lines 370-376): an absent or null value
becomes 0, anything else goes through
`int(float(str(val).replace(',', '')))` with a 0 fallback. -/
def vNumField (k : String) (data : List (String × Json)) : List (String × Json) :=
  match dictGet k data with
  | some v =>
    if v.isNull then dictSet k (.num 0) data
    else dictSet k (.num (pyToIntOr0 v)) data
  | none => dictSet k (.num 0) data

/-- The resume skills validation step (lines 345-356). -/
def vResumeSkills (data : List (String × Json)) : List (String × Json) :=
  match dictGet "skills" data with
  | some (.arr l) => dictSet "skills" (.arr (validateSkillsList l)) data
  | _ => dictSet "skills" (.arr []) data

/-- A JD string-list validation step (lines 378-394), for
`requiredSkills` and `preferredSkills`. -/
def vListFieldStr (k : String) (data : List (String × Json)) : List (String × Json) :=
  match dictGet k data with
  | some (.arr l) => dictSet k (.arr (l.filterMap validateStrSkill)) data
  | _ => dictSet k (.arr []) data

/-- The Resume branch of `json_parser.validate_data_types` (lines 331-366),
as the sequence of dict mutations the source performs. -/
def validateResume (data : List (String × Json)) : List (String × Json) :=
  ensureList "experienceDetails"
    (ensureList "education" (vResumeSkills (vNumField "totalYearsExperience" data)))

/-- The Job Description branch of `validate_data_types` (lines 369-396). -/
def validateJD (data : List (String × Json)) : List (String × Json) :=
  vListFieldStr "preferredSkills"
    (vListFieldStr "requiredSkills" (vNumField "minExperienceYears" data))

/-- `json_parser.validate_data_types` (lines 318-401). The outer
`try/except` of the source logs and returns `data` on an exception; this
total embedding has no exceptional path. -/
def validate_data_types (data : List (String × Json)) : DocType → List (String × Json)
  | .resume => validateResume data
  | .jd => validateJD data

/-- The required-field lists of `parse_with_validation` (lines 426-429). -/
def required_fields : DocType → List String
  | .jd => ["jobTitle", "requiredSkills", "minExperienceYears"]
  | .resume => ["role", "totalYearsExperience", "skills", "education"]

/-- `f not in data or data.get(f) is None` (line 432). -/
def fieldMissing (data : List (String × Json)) (f : String) : Bool :=
  match dictGet f data with
  | none => true
  | some v => v.isNull

/-- `defaults.update({k: v for k, v in data.items() if v is not None})`
(line 438): start from the schema defaults and write every non-null
field of the parsed object over them, in insertion order. -/
def mergeDefaults (t : DocType) (data : List (String × Json)) : List (String × Json) :=
  data.foldl (fun acc kv => if kv.2.isNull then acc else dictSet kv.1 kv.2 acc) (get_default_structure t)

/-- `json_parser.parse_with_validation` (lines 404-445) from the point
where `clean_json_response` has produced its result: `none` models a
failed parse (and any falsy result), `some []` is the empty object, which
is also falsy in Python. -/
def parse_with_validation (data : Option (List (String × Json))) (t : DocType) : List (String × Json) :=
  match data with
  | none => get_default_structure t
  | some d =>
    if d.isEmpty then get_default_structure t
    else
      let d' := if (required_fields t).any (fun f => fieldMissing d f) then mergeDefaults t d else d
      validate_data_types d' t

/-- A well-formed element of a validated resume skills list: a dict
whose `name` is present and truthy. -/
def skillEntryOK (e : Json) : Prop :=
  ∃ d, e = Json.obj d ∧ ∃ v, dictGet "name" d = some v ∧ jsonTruthy v = true

/-- The guarantees normalisation actually provides for a resume record:
the four required fields are present (role non-null, the others
type-correct) and `experienceDetails` is a list. -/
def schemaOKResume (d : List (String × Json)) : Prop :=
  (∃ v, dictGet "role" d = some v ∧ v.isNull = false) ∧
  (∃ n : ℤ, dictGet "totalYearsExperience" d = some (.num n)) ∧
  (∃ xs, dictGet "skills" d = some (.arr xs) ∧ ∀ e ∈ xs, skillEntryOK e) ∧
  (∃ xs, dictGet "education" d = some (.arr xs)) ∧
  (∃ xs, dictGet "experienceDetails" d = some (.arr xs))

/-- The guarantees normalisation actually provides for a JD record. -/
def schemaOKJD (d : List (String × Json)) : Prop :=
  (∃ v, dictGet "jobTitle" d = some v ∧ v.isNull = false) ∧
  (∃ n : ℤ, dictGet "minExperienceYears" d = some (.num n)) ∧
  (∃ xs, dictGet "requiredSkills" d = some (.arr xs) ∧
    ∀ e ∈ xs, ∃ s : String, e = .str s ∧ s ≠ "") ∧
  (∃ xs, dictGet "preferredSkills" d = some (.arr xs) ∧
    ∀ e ∈ xs, ∃ s : String, e = .str s ∧ s ≠ "")

/-! ## `matching_engine.normalize_skill` (lines 10-17) -/

def isLowerAlnum (c : Char) : Bool :=
  (('a' ≤ c) && (c ≤ 'z')) || (('0' ≤ c) && (c ≤ '9'))

/-- Python `str.split()`: split on whitespace runs, discarding empties. -/
def splitWs (s : List Char) : List (List Char) :=
  let r := s.foldr
    (fun c (acc : List (List Char) × List Char) =>
      if pyWs c then (if acc.2.isEmpty then acc.1 else acc.2 :: acc.1, [])
      else (acc.1, c :: acc.2))
    ([], [])
  if r.2.isEmpty then r.1 else r.2 :: r.1

/-- `' '.join(words)`. -/
def joinSp : List (List Char) → List Char
  | [] => []
  | [w] => w
  | w :: x :: ws => w ++ ' ' :: joinSp (x :: ws)

/-- `matching_engine.normalize_skill` (lines 10-17): lower-case, strip,
drop every character that is not a lower-case letter, digit or whitespace,
then collapse whitespace runs to single spaces. -/
def normalize_skill (skill : List Char) : List Char :=
  let s := stripChars (skill.map Char.toLower)
  let s := s.filter (fun c => isLowerAlnum c || pyWs c)
  joinSp (splitWs s)

/-! ## `difflib.SequenceMatcher.ratio` on the two normalised skills

`find_skill_match` calls `SequenceMatcher(None, a, b).ratio()`:
twice the total length of the Ratcliff-Obershelp matching blocks divided
by the combined length. With inputs far below difflib's 200-character
autojunk threshold no element is junk, so the matcher is the plain
recursive longest-matching-block computation. -/

def commonPrefixLen : List Char → List Char → ℕ
  | a :: as, b :: bs => if a = b then commonPrefixLen as bs + 1 else 0
  | _, _ => 0

/-- `find_longest_match` over the whole strings: the longest common
contiguous block, ties resolved to the smallest start in the first string
and then in the second, as difflib's scan order does. -/
def findLongestMatch (a b : List Char) : ℕ × ℕ × ℕ :=
  (List.range a.length).foldl
    (fun best i =>
      (List.range b.length).foldl
        (fun best j =>
          let k := commonPrefixLen (a.drop i) (b.drop j)
          if k > best.2.2 then (i, j, k) else best)
        best)
    (0, 0, 0)

/-- Total size of all matching blocks (the recursion of
`get_matching_blocks`). The fuel bounds the recursion depth; the top call
supplies more than the combined length, which suffices because every
split removes at least one character from each side's total. -/
def matchTotal : ℕ → List Char → List Char → ℕ
  | 0, _, _ => 0
  | fuel + 1, a, b =>
    let r := findLongestMatch a b
    if r.2.2 = 0 then 0
    else
      r.2.2 + matchTotal fuel (a.take r.1) (b.take r.2.1) +
        matchTotal fuel (a.drop (r.1 + r.2.2)) (b.drop (r.2.1 + r.2.2))

/-- `SequenceMatcher(None, a, b).ratio()` as an exact rational:
2M / T for M the total matched size and T the combined length. -/
def smRatio (a b : List Char) : ℚ :=
  if a.length + b.length = 0 then 1
  else mkRat (2 * matchTotal (a.length + b.length + 1) a b) (a.length + b.length)

/-! ## `skills_analogy.get_skill_group` (lines 564-593) -/

/-- `skills_analogy.get_skill_group`. A falsy argument returns `None`
(line 571). For any other argument the function builds
`all_categories = [PROGRAMMING, ..., TESTING, AI_ML_ADVANCED, SOFT_SKILLS,
BUSINESS_SKILLS]` (lines 577-580) — but `TESTING`, `AI_ML_ADVANCED` and
`SOFT_SKILLS` are defined nowhere in the module (the file defines
`QA_TESTING` and never defines the other two), so every such call raises
`NameError` before reaching a single table lookup. The alias tables are
therefore dead data as far as this function is concerned, and the
embedding returns `Except.error` for every non-empty argument. -/
def get_skill_group (skill_name : List Char) : Except Unit (Option (List Char)) :=
  if skill_name.isEmpty then Except.ok none else Except.error ()

/-! ## `matching_engine.find_skill_match` (lines 21-56) -/

/-- Python `needle in hay` for strings: contiguous substring test. -/
def containsSub (needle : List Char) : List Char → Bool
  | [] => needle.isEmpty
  | c :: cs => needle.isPrefixOf (c :: cs) || containsSub needle cs

structure SkillMatch where
  matched : Bool
  kind : String
  confidence : ℚ
deriving DecidableEq

/-- `matching_engine.find_skill_match` (lines 21-56) at the default
similarity threshold 0.70. Strategy 2 mirrors the source's
`try: ... except: pass`: `get_skill_group` raising on either argument
skips the analogy strategy; were both lookups to succeed, equal truthy
groups would yield an analogy match at confidence 0.95. -/
def find_skill_match (candidate_skill required_skill : List Char) : SkillMatch :=
  let cand_norm := normalize_skill candidate_skill
  let req_norm := normalize_skill required_skill
  if cand_norm.isEmpty || req_norm.isEmpty then ⟨false, "invalid", 0⟩
  else if cand_norm = req_norm then ⟨true, "exact", 1⟩
  else
    let strat2 : Option SkillMatch :=
      match get_skill_group candidate_skill, get_skill_group required_skill with
      | .ok (some g1), .ok (some g2) =>
        if ¬ g1.isEmpty ∧ ¬ g2.isEmpty ∧ g1 = g2 then some ⟨true, "analogy", mkRat 95 100⟩
        else none
      | _, _ => none
    match strat2 with
    | some r => r
    | none =>
      let similarity := smRatio cand_norm req_norm
      if similarity ≥ mkRat 7 10 then ⟨true, "fuzzy", similarity⟩
      else if req_norm.length > 3 ∧ cand_norm.length > 3 ∧
          (containsSub cand_norm req_norm || containsSub req_norm cand_norm) then
        ⟨true, "substring", mkRat 88 100⟩
      else ⟨false, "no_match", 0⟩

/-! ## `matching_engine.check_experience_match` (lines 60-92)

After schema normalisation both year fields are non-negative integers
(`int(float(...))` with a 0 fallback); the `float` conversions of lines
63-64 are identities on them, so the function is embedded over `Nat`.
`int(x)` of the non-negative proportional score is floor division. The
`details` message strings are not modelled; every claim concerns the
numeric and boolean fields. -/

structure ExpResult where
  met : Bool
  candidateExperience : ℕ
  requiredExperience : ℕ
  score : ℕ
  percentage : ℕ
deriving DecidableEq

def check_experience_match (candidate_years required_years : ℕ) : ExpResult :=
  let met := candidate_years ≥ required_years
  let sp : ℕ × ℕ :=
    if required_years = 0 then (35, 100)
    else if candidate_years ≥ required_years then (35, 100)
    else (max 1 ((candidate_years * 35) / required_years),
      (candidate_years * 100) / required_years)
  ⟨met, candidate_years, required_years, sp.1, min 100 sp.2⟩

/-! ## `matching_engine` education matching (lines 96-181) -/

/-- `matching_engine.EDUCATION_HIERARCHY` (lines 96-108), in insertion
order (the substring scan of `normalize_education` respects it). -/
def EDUCATION_HIERARCHY : List (List Char × ℕ) :=
  [("phd".toList, 4), ("doctorate".toList, 4), ("master".toList, 3),
   ("m.tech".toList, 3), ("mba".toList, 3), ("bachelor".toList, 2),
   ("b.tech".toList, 2), ("b.s".toList, 2), ("b.a".toList, 2),
   ("diploma".toList, 1), ("high school".toList, 0)]

/-- `matching_engine.normalize_education` (lines 110-121). -/
def normalize_education (degree : List Char) : List Char × ℕ :=
  if degree.isEmpty then ("not specified".toList, 0)
  else
    let dl := stripChars (degree.map Char.toLower)
    match EDUCATION_HIERARCHY.find? (fun kv => containsSub kv.1 dl) with
    | some kv => kv
    | none => (dl, 0)

/-- A resume education entry as `check_education_match` reads it
(lines 136-140): a dict, whose `degree` may be absent, or a bare value
already rendered to its string form. An entry whose degree is `None`
behaves identically to an absent degree (both are falsy inputs to
`normalize_education`), so one `Option` covers both. -/
inductive EduEntry where
  | dictE (degree : Option (List Char))
  | strE (s : List Char)

def EduEntry.degreeStr : EduEntry → List Char
  | .dictE d => d.getD ("not specified".toList)
  | .strE s => if s.isEmpty then "not specified".toList else s

/-- The highest-degree scan of `check_education_match` (lines 130-149):
fold keeping the first entry of strictly greatest level, starting from
("not specified", 0). Line 148 re-substitutes "not specified" for an
unchanged default, which is the identity. -/
def highestEdu (education : List EduEntry) : List Char × ℕ :=
  education.foldl
    (fun best e =>
      let ds := e.degreeStr
      let lv := (normalize_education ds).2
      if lv > best.2 then (ds, lv) else best)
    ("not specified".toList, 0)

structure EduResult where
  met : Bool
  candidateDegree : List Char
  requiredDegree : List Char
  score : ℕ
  percentage : ℕ
  isOverqualified : Bool
deriving DecidableEq

/-- `matching_engine.check_education_match` (lines 123-181). The
`details` strings are not modelled. -/
def check_education_match (education : List EduEntry) (required_degree : List Char) : EduResult :=
  let cand := highestEdu education
  let required_level := (normalize_education required_degree).2
  let met := cand.2 ≥ required_level
  let sp : ℕ × ℕ :=
    if required_level = 0 ∨ required_degree = ("not specified".toList) then (25, 100)
    else if cand.2 ≥ required_level then (25, 100)
    else (max 1 ((cand.2 * 25) / required_level), (cand.2 * 100) / required_level)
  ⟨met, cand.1, required_degree, sp.1, min 100 sp.2,
    decide (cand.2 > required_level) && decide (required_level > 0)⟩

/-! ## `matching_engine.check_skills_match` (lines 185-278) -/

/-- A resume skill entry as `check_skills_match` reads it (lines 192-196):
a dict (`skill.get('name', '').strip()`, absent name giving the empty
string) or a bare value, whose falsy case yields the empty string. -/
inductive MSkill where
  | dictS (name : Option (List Char))
  | strS (s : List Char)

def MSkill.extractName : MSkill → List Char
  | .dictS n => stripChars (n.getD [])
  | .strS s => stripChars s

/-- Whether any candidate skill resolves against the required skill
(the inner loop of lines 229-237). -/
def skillFound (candidate_skills : List (List Char)) (req : List Char) : Bool :=
  candidate_skills.any (fun c => (find_skill_match c req).matched)

structure SkillsResult where
  met : Bool
  candidateSkillsCount : ℕ
  requiredSkillsCount : ℕ
  percentage : ℕ
  matchedSkills : List (List Char)
  missingSkills : List (List Char)
  score : ℕ
  allCandidateSkills : List (List Char)
deriving DecidableEq

/-- `matching_engine.check_skills_match` (lines 185-278). The
`skillMatchDetails` diagnostics and the `details` strings are not
modelled; every claim concerns the counts, score and `met` flag. Note the
source's quirk that `candidateSkillsCount` is the number of *matched*
skills in the scored branch (line 269) but the number of candidate skills
in the empty-requirements branch (line 208). -/
def candidateNames (resume_skills : List MSkill) : List (List Char) :=
  (resume_skills.map MSkill.extractName).filter (fun n => ¬ n.isEmpty)

def requiredNames (jd_required : List (List Char)) : List (List Char) :=
  jd_required.filterMap
    (fun s => if ¬ s.isEmpty ∧ ¬ (stripChars s).isEmpty then some (stripChars s) else none)

def check_skills_match (resume_skills : List MSkill) (jd_required : List (List Char)) : SkillsResult :=
  let candidate_skills := candidateNames resume_skills
  let required_skills := requiredNames jd_required
  if required_skills.isEmpty then
    ⟨true, candidate_skills.length, 0, 100, candidate_skills, [], 40, candidate_skills⟩
  else
    let matched := required_skills.filter (fun r => skillFound candidate_skills r)
    let missing := required_skills.filter (fun r => ¬ skillFound candidate_skills r)
    let m := matched.length
    let n := required_skills.length
    let percentage := (m * 100) / n
    let score := if 0 < m then max 1 ((m * 40) / n) else 0
    ⟨percentage ≥ 50, m, n, percentage, matched, missing, score, candidate_skills⟩

/-! ## `matching_engine.calculate_match` (lines 282-398) -/

structure Assessment where
  text : String
  color : String
deriving DecidableEq

/-- `matching_engine.get_assessment` over `ASSESSMENT_MAP`
(lines 282-295): highest threshold not exceeding the score wins; the
0 threshold catches everything. The emoji prefixes of the labels are
not modelled. -/
def get_assessment (score : ℕ) : Assessment :=
  if score ≥ 90 then ⟨"Excellent Match", "green"⟩
  else if score ≥ 75 then ⟨"Great Match", "green"⟩
  else if score ≥ 60 then ⟨"Good Match", "blue"⟩
  else if score ≥ 40 then ⟨"Moderate Match", "orange"⟩
  else ⟨"Poor Match", "red"⟩

/-- The two normalised records as `calculate_match` consumes them. A
record that is absent, `None`, or the falsy empty dict is modelled as
`none` at the call site. -/
structure RecordResume where
  totalYearsExperience : ℕ
  education : List EduEntry
  skills : List MSkill

structure RecordJD where
  minExperienceYears : ℕ
  requiredEducation : List Char
  requiredSkills : List (List Char)

structure MatchReport where
  experienceResult : ExpResult
  educationResult : EduResult
  skillsResult : SkillsResult
  overallScore : ℕ
  assessment : Assessment
  gaps : List String
  summary : String

/-- `matching_engine.calculate_match` (lines 297-398). The guard
`if not resume_data or not jd_data: raise Exception(...)` makes the
function raise whenever *either* input is falsy; the raised exception is
re-raised by the handler at line 398. `recommendations` (the three
unmodelled `details` strings) is omitted. The `min(100, max(0, sum))`
clamp is `min 100` over `Nat`. -/
def calculate_match (resume_data : Option RecordResume) (jd_data : Option RecordJD) :
    Except String MatchReport :=
  match resume_data, jd_data with
  | some r, some j =>
    let er := check_experience_match r.totalYearsExperience j.minExperienceYears
    let ed := check_education_match r.education j.requiredEducation
    let sk := check_skills_match r.skills j.requiredSkills
    let overall := min 100 (er.score + ed.score + sk.score)
    let matched_count :=
      (if er.met then 1 else 0) + (if ed.met then 1 else 0) + (if sk.met then 1 else 0)
    let summary := "Matches " ++ toString matched_count ++ "/3 criteria. " ++
      (if overall ≥ 75 then "Strong candidate for interview."
       else if overall ≥ 60 then "Good candidate to consider."
       else if overall ≥ 40 then "Moderate candidate with gaps."
       else "Significant improvement needed.")
    let gaps :=
      (if er.met then [] else ["Experience: " ++ toString er.percentage ++ "% match"]) ++
      (if ed.met then [] else ["Education: " ++ toString ed.percentage ++ "% match"]) ++
      (if sk.met then [] else ["Skills: " ++ toString sk.percentage ++ "% match"])
    Except.ok ⟨er, ed, sk, overall, get_assessment overall, gaps, summary⟩
  | _, _ => Except.error "Missing resume or JD data"

/-! ## `json_parser.calculate_experience_from_details` (lines 493-546)

Dates are modelled as integer day numbers (any fixed epoch): `datetime`
subtraction of the midnight timestamps produced by `strptime` yields the
exact day difference. An entry's fields hold the result of
`parse_date_safely` — `none` covering a missing, unparsable or
"present"-sentinel date, all of which that function returns as `None`.
A `none` entry models a list element that is not a dict, skipped by the
`isinstance` check. -/

structure ExpEntry where
  startDate : Option ℤ
  endDate : Option ℤ

/-- The per-entry filter of lines 502-526: drop entries with no parsed
start, a future start, end before start, or a duration under 30 days or
over 60 years; a missing end becomes `today`. -/
def keptOne (today : ℤ) : Option ExpEntry → Option (ℤ × ℤ)
  | none => none
  | some e =>
    match e.startDate with
    | none => none
    | some s =>
      if s > today then none
      else if e.endDate.getD today < s then none
      else if e.endDate.getD today - s < 30 ∨ e.endDate.getD today - s > 60 * 365 then none
      else some (s, e.endDate.getD today)

def keptPeriods (today : ℤ) (entries : List (Option ExpEntry)) : List (ℤ × ℤ) :=
  entries.filterMap (keptOne today)

/-- Stable insertion by start date (an element is placed after every
element whose start is ≤ its own), implementing
`periods.sort(key=lambda x: x['start'])`. -/
def insertByStart (p : ℤ × ℤ) : List (ℤ × ℤ) → List (ℤ × ℤ)
  | [] => [p]
  | q :: qs => if p.1 < q.1 then p :: q :: qs else q :: insertByStart p qs

def sortByStart (l : List (ℤ × ℤ)) : List (ℤ × ℤ) :=
  l.foldl (fun acc p => insertByStart p acc) []

/-- The merge loop of lines 532-538: absorb the next interval into the
running merge when its start does not pass the running end, extending the
end to the maximum; otherwise close the running merge and start a new
one. -/
def mergeLoop : (ℤ × ℤ) → List (ℤ × ℤ) → List (ℤ × ℤ)
  | cur, [] => [cur]
  | cur, p :: ps =>
    if p.1 ≤ cur.2 then mergeLoop (cur.1, max cur.2 p.2) ps
    else cur :: mergeLoop p ps

def mergeAll : List (ℤ × ℤ) → List (ℤ × ℤ)
  | [] => []
  | p :: ps => mergeLoop p ps

/-- `json_parser.calculate_experience_from_details` (lines 493-546).
The summed day total is non-negative (every kept duration is ≥ 30), so
Python's floor divisions `// 365` and `// 30` are `Nat` division after
`toNat`. -/
def calculate_experience_from_details (today : ℤ) (entries : List (Option ExpEntry)) : ℕ × ℕ :=
  if entries.isEmpty then (0, 0)
  else
    let periods := keptPeriods today entries
    if periods.isEmpty then (0, 0)
    else
      let merged := mergeAll (sortByStart periods)
      let td := ((merged.map (fun (p : ℤ × ℤ) => p.2 - p.1)).sum).toNat
      (td / 365, (td % 365) / 30)

/-- The set of calendar days (as integers) covered by a list of
half-open intervals — the measure against which double-counting is
judged. -/
def daysOf (l : List (ℤ × ℤ)) : Finset ℤ :=
  l.foldr (fun (p : ℤ × ℤ) (acc : Finset ℤ) => Finset.Ico p.1 p.2 ∪ acc) ∅

/-! ## Spec-side score formulas and concrete instances

The two `claimed*` definitions transcribe the specification's wording of
the proportional-branch scores ("floored at 1 only when the candidate
value is positive"); they exist solely to be compared with the
source-derived functions. -/

/-- The experience sub-score as the specification words it. -/
def claimedExpScore (c r : ℕ) : ℕ :=
  if r = 0 then 35
  else if c ≥ r then 35
  else if c > 0 then max 1 ((c * 35) / r) else (c * 35) / r

/-- The education sub-score as the specification words it, as a function
of the candidate's (highest) level and the required level. -/
def claimedEduScore (cl rl : ℕ) : ℕ :=
  if rl = 0 then 25
  else if cl ≥ rl then 25
  else if cl > 0 then max 1 ((cl * 25) / rl) else (cl * 25) / rl

/-- A truncated response: an object opening, an array, a nested object,
cut off mid-number — unterminated braces and brackets, no dangling
string literal. -/
def exC1 : List Char := "\x7b\"a\": [1, \x7b\"b\": 2".toList

/-- What the recovery pipeline returns for `exC1`. -/
def outC1 : List Char := "\x7b\"a\": [1, \x7b\"b\": 2]\x7d\x7d".toList

/-- A truncated object with an open brace and an open bracket, fed to
tier-3 recovery. -/
def exC2 : List Char := "\x7b\"a\": [1".toList

/-- A parsed resume object carrying exactly the four required fields. -/
def exC3 : List (String × Json) :=
  [("role", Json.str "x"), ("totalYearsExperience", Json.num 1),
   ("skills", Json.arr []), ("education", Json.arr [])]

/-- A resume record with some content, for exercising `calculate_match`
with one absent input. -/
def exResume : RecordResume :=
  ⟨5, [EduEntry.dictE (some ("bachelor".toList))], [MSkill.strS ("python".toList)]⟩

def exJD : RecordJD :=
  ⟨3, "bachelor".toList, [("python".toList)]⟩

/-- The worked example of the specification's experience-aggregator
property: [2018-01, 2020-01] and [2019-01, 2021-01] as day numbers with
epoch 2018-01-01 (730 = 2019-01-01 minus one leap-free year pair,
365 = 2019-01-01, 1096 = 2021-01-01 across the 2020 leap year). -/
def exC7 : List (Option ExpEntry) :=
  [some ⟨some 0, some 730⟩, some ⟨some 365, some 1096⟩]

/-! # Theorems -/

theorem toNat_coe_sub (a b : ℕ) : ((a : ℤ) - (b : ℤ)).toNat = a - b := by omega

/-- C4 (counterexample): the claim's experience formula says a candidate
with 0 years against a 5-year requirement scores
floor(0/5*35) = 0 with no flooring (candidate is not > 0); the code's
unconditional `score = max(1, score)` yields 1. -/
theorem C4_counterexample :
    (check_experience_match 0 5).score = 1 ∧ claimedExpScore 0 5 = 0 ∧
    (check_experience_match 0 5).score ≠ claimedExpScore 0 5 := by decide

/-- C4 (amended): the experience sub-score is 35 with `met` when the
requirement is 0 or satisfied; otherwise it is floor(candidate/required
× 35) floored at 1 *unconditionally* (so a zero-experience candidate
still scores 1), and `met` holds exactly when candidate ≥ required. -/
theorem C4_experience_amended (c r : ℕ) :
    (check_experience_match c r).score = (if r = 0 ∨ r ≤ c then 35 else max 1 ((c * 35) / r)) ∧
    ((check_experience_match c r).met = true ↔ r ≤ c) := by
  unfold check_experience_match
  refine ⟨?_, ?_⟩
  · by_cases h1 : r = 0 <;> by_cases h2 : r ≤ c <;> simp [h1, h2, ge_iff_le]
  · simp [ge_iff_le]

/-- C5 (counterexample): a candidate with no education entries (level 0)
against a required "bachelor" (level 2) scores 1 through the code's
unconditional flooring, while the claim's formula ("floored at 1 only
when the candidate level > 0") yields 0. -/
theorem C5_counterexample :
    (check_education_match [] ("bachelor".toList)).score = 1 ∧
    claimedEduScore (highestEdu []).2 (normalize_education ("bachelor".toList)).2 = 0 ∧
    (check_education_match [] ("bachelor".toList)).score ≠
      claimedEduScore (highestEdu []).2 (normalize_education ("bachelor".toList)).2 := by
  decide

theorem highestEdu_aux (l : List EduEntry) (b : List Char × ℕ) :
    (l.foldl
      (fun best e =>
        let ds := e.degreeStr
        let lv := (normalize_education ds).2
        if lv > best.2 then (ds, lv) else best) b).2 =
      l.foldl (fun m e => max m (normalize_education e.degreeStr).2) b.2 := by
  induction l generalizing b with
  | nil => rfl
  | cons e l ih =>
    simp only [List.foldl]
    rw [ih]
    congr 1
    by_cases h : (normalize_education e.degreeStr).2 > b.2 <;> simp [h] <;> omega

/-- C5 (amended): education scoring compares only the highest-ranked
entry level (the fold below); full 25 and `met` when the requirement is
level 0/"not specified" or satisfied; `overqualified` exactly when the
candidate level is strictly greater against a positive requirement; in
the proportional branch the score is floored at 1 *unconditionally*
(so a level-0 candidate still scores 1). -/
theorem C5_education_amended (education : List EduEntry) (required_degree : List Char) :
    (check_education_match education required_degree).score =
      (if (normalize_education required_degree).2 = 0 ∨
          required_degree = ("not specified".toList) then 25
       else if (normalize_education required_degree).2 ≤ (highestEdu education).2 then 25
       else max 1 (((highestEdu education).2 * 25) / (normalize_education required_degree).2)) ∧
    ((check_education_match education required_degree).met = true ↔
      (normalize_education required_degree).2 ≤ (highestEdu education).2) ∧
    ((check_education_match education required_degree).isOverqualified = true ↔
      (normalize_education required_degree).2 < (highestEdu education).2 ∧
        0 < (normalize_education required_degree).2) ∧
    (highestEdu education).2 =
      education.foldl (fun m e => max m (normalize_education e.degreeStr).2) 0 := by
  refine ⟨?_, ?_, ?_, ?_⟩
  · simp only [check_education_match]
    split_ifs <;> rfl
  · simp only [check_education_match]
    simp [ge_iff_le]
  · simp only [check_education_match]
    simp [Bool.and_eq_true, decide_eq_true_eq]
  · unfold highestEdu
    exact highestEdu_aux education _

/-- C9 (counterexample): with a present resume record and an absent/null
job-description input, `calculate_match` raises (the claim says only the
both-absent case is fatal). -/
theorem C9_counterexample :
    calculate_match (some exResume) (none : Option RecordJD) =
      Except.error "Missing resume or JD data" := rfl

/-- C9 (amended): `calculate_match` returns a report exactly when *both*
inputs are present; it raises whenever either one is absent/null. -/
theorem C9_fatal_amended (resume_data : Option RecordResume) (jd_data : Option RecordJD) :
    (∃ rep, calculate_match resume_data jd_data = Except.ok rep) ↔
      (resume_data ≠ none ∧ jd_data ≠ none) := by
  cases resume_data <;> cases jd_data <;> simp [calculate_match]

/-- C10: a skill whose normalisation is empty (empty, whitespace-only or
punctuation-only input) never matches: kind "invalid", confidence 0,
even against an identical raw string. -/
theorem C10_invalid_skills (c r : List Char)
    (h : normalize_skill c = [] ∨ normalize_skill r = []) :
    find_skill_match c r = ⟨false, "invalid", 0⟩ := by
  unfold find_skill_match
  rcases h with h | h <;> simp [h]

theorem C10_witness :
    normalize_skill ("++".toList) = [] ∧
    find_skill_match ("++".toList) ("++".toList) = ⟨false, "invalid", 0⟩ :=
  ⟨by decide, C10_invalid_skills _ _ (Or.inl (by decide))⟩

/-- C2 (counterexample): on a truncated object with one open brace and
one open bracket, tier-3 aggressive recovery appends the closing brace
*before* the bracket, contradicting the claimed unconditional
brackets-first order. -/
theorem C2_counterexample :
    aggressive_json_recovery exC2 = exC2 ++ ('\x7d' :: ']' :: []) ∧
    aggressive_json_recovery exC2 ≠ exC2 ++ (']' :: '\x7d' :: []) := by decide

/-- C2 (amended): the truncated-tail completion appends all pending `]`
closers before all pending brace closers, but tier-3 aggressive recovery
appends them in the *opposite* order — braces first, then brackets. -/
theorem C2_closer_order (s : List Char) :
    auto_complete_json s =
      acBase s ++ List.replicate ((acBase s).count '[' - (acBase s).count ']') ']'
        ++ List.replicate ((acBase s).count '\x7b' - (acBase s).count '\x7d') '\x7d' ∧
    aggressive_json_recovery s =
      aggBase s ++ List.replicate ((aggBase s).count '\x7b' - (aggBase s).count '\x7d') '\x7d'
        ++ List.replicate ((aggBase s).count '[' - (aggBase s).count ']') ']' := by
  constructor <;> simp [auto_complete_json, aggressive_json_recovery, toNat_coe_sub]

/-- C8: evaluating the resolver at the specification's own test pair.
Because `get_skill_group` raises `NameError` on every non-empty argument
(it references the undefined globals `TESTING`, `AI_ML_ADVANCED` and
`SOFT_SKILLS`), the canonical-group strategy is unreachable and
resolve("ReactJS", "React") falls through to the fuzzy strategy with
confidence 5/6 ≈ 0.83 — not the claimed canonical-group match at 0.95.
resolve("Python", "Java") is no match, as claimed. -/
theorem C8_resolver_behavior :
    find_skill_match ("ReactJS".toList) ("React".toList) =
      ⟨true, "fuzzy", mkRat 5 6⟩ ∧
    (mkRat 5 6 : ℚ) = 5 / 6 ∧
    find_skill_match ("Python".toList) ("Java".toList) = ⟨false, "no_match", 0⟩ ∧
    get_skill_group ("ReactJS".toList) = Except.error () :=
  ⟨by decide, by rw [Rat.mkRat_eq_div]; norm_num, by decide, rfl⟩

/-- C6: if the (cleaned) required-skills list is empty the skills
sub-score is 40 with `met` true, even with zero candidate skills;
otherwise the score is floor(matched/required × 40) floored at 1 exactly
when at least one required skill matched, and `met` holds iff the matched
percentage (floor(matched/required × 100)) is at least 50. -/
theorem C6_skills_scoring (resume_skills : List MSkill) (jd_required : List (List Char)) :
    (requiredNames jd_required = [] →
      (check_skills_match resume_skills jd_required).score = 40 ∧
      (check_skills_match resume_skills jd_required).met = true) ∧
    (requiredNames jd_required ≠ [] →
      (check_skills_match resume_skills jd_required).score =
        (if 0 < ((requiredNames jd_required).filter
            (fun r => skillFound (candidateNames resume_skills) r)).length then
          max 1 ((((requiredNames jd_required).filter
              (fun r => skillFound (candidateNames resume_skills) r)).length * 40) /
            (requiredNames jd_required).length)
         else
          (((requiredNames jd_required).filter
              (fun r => skillFound (candidateNames resume_skills) r)).length * 40) /
            (requiredNames jd_required).length) ∧
      ((check_skills_match resume_skills jd_required).met = true ↔
        50 ≤ (((requiredNames jd_required).filter
            (fun r => skillFound (candidateNames resume_skills) r)).length * 100) /
          (requiredNames jd_required).length)) := by
  constructor
  · intro h
    simp only [check_skills_match, h]
    simp
  · intro h
    have hne : (requiredNames jd_required).isEmpty = false := by
      simpa [List.isEmpty_iff] using h
    simp only [check_skills_match, hne]
    refine ⟨?_, ?_⟩
    · simp only [Bool.false_eq_true, if_false]
      split_ifs with hpos
      · rfl
      · have hm : ((requiredNames jd_required).filter
            (fun r => skillFound (candidateNames resume_skills) r)).length = 0 := by omega
        rw [hm]
        simp
    · simp [ge_iff_le]

theorem C6_witness :
    requiredNames [("python".toList)] ≠ [] ∧
    (check_skills_match [MSkill.strS ("python".toList)] [("python".toList)]).score = 40 ∧
    (check_skills_match [MSkill.strS ("python".toList)] [("python".toList)]).met = true := by
  have h := (C6_skills_scoring [MSkill.strS ("python".toList)] [("python".toList)]).2 (by decide)
  refine ⟨by decide, ?_, h.2.mpr (by decide)⟩
  rw [h.1]
  decide

/-! ### C1: recovery of truncated input -/

/-- Index/element characterisation of `rfindIdx`. -/
theorem rfindIdx_spec (p : Char → Bool) (l : List Char) (i : ℕ)
    (h : rfindIdx p l = some i) : ∃ hlt : i < l.length, p (l.get ⟨i, hlt⟩) = true := by
  unfold rfindIdx at h
  cases hR : l.reverse.findIdx? p with
  | none => rw [hR] at h; exact absurd h (by simp)
  | some j =>
    rw [hR] at h
    have hi : i = l.length - 1 - j := by
      injection h with h'
      omega
    rw [List.findIdx?_eq_some_iff_getElem] at hR
    obtain ⟨hj, hpj, _⟩ := hR
    have hlen : j < l.length := by simpa using hj
    have hlt : i < l.length := by omega
    refine ⟨hlt, ?_⟩
    rw [List.getElem_reverse] at hpj
    simpa [List.get_eq_getElem, hi] using hpj

/-- C1 (counterexample): a truncated JSON-like input with unterminated
brace and bracket and no dangling string, whose recovered completion
closes the bracket before the inner brace and therefore does not parse
as JSON. -/
theorem C1_counterexample :
    extract_json_string exC1 = some outC1 ∧
    '\x7b' ∈ preprocess exC1 ∧ '\x7d' ∉ preprocess exC1 ∧
    (preprocess exC1).count '"' % 2 = 0 ∧
    jsonValid outC1 = false := by decide

/-- C1 (amended): on a truncated input (an opening brace is present, no
closing brace anywhere), recovery always returns a completion in which
the appended closers balance the counts — no unmatched opening brace or
bracket remains — but the result need not parse strictly as JSON, since
the brackets-before-braces completion order can mismatch the actual
nesting. -/
theorem C1_truncated_amended (s : List Char)
    (h1 : '\x7b' ∈ preprocess s) (h2 : '\x7d' ∉ preprocess s) :
    ∃ out, extract_json_string s = some out ∧
      out.count '\x7b' = out.count '\x7d' ∧ out.count '[' ≤ out.count ']' := by
  have hs : s ≠ [] := by
    rintro rfl
    rw [show preprocess ([] : List Char) = [] by rfl] at h1
    exact List.not_mem_nil _ h1
  obtain ⟨start, hstart⟩ : ∃ i, (preprocess s).findIdx? (fun c => c = '\x7b') = some i := by
    cases hopt : (preprocess s).findIdx? (fun c => c = '\x7b') with
    | none =>
      rw [List.findIdx?_eq_none_iff] at hopt
      exact absurd (hopt _ h1) (by simp)
    | some i => exact ⟨i, rfl⟩
  have hrf : rfindIdx (fun c => c = '\x7d') (preprocess s) = none := by
    unfold rfindIdx
    have hnone : (preprocess s).reverse.findIdx? (fun c => c = '\x7d') = none := by
      rw [List.findIdx?_eq_none_iff]
      intro x hx
      simp only [decide_eq_false_iff_not]
      rintro rfl
      exact h2 (List.mem_reverse.mp hx)
    rw [hnone]
  obtain ⟨hlt, hp, -⟩ := List.findIdx?_eq_some_iff_getElem.mp hstart
  have hget : (preprocess s)[start] = '\x7b' := by simpa using hp
  have hu_cons : ∃ u', (preprocess s).drop start = '\x7b' :: u' := by
    cases hcase : (preprocess s).drop start with
    | nil =>
      have hlen := congrArg List.length hcase
      simp [List.length_drop] at hlen
      omega
    | cons a u' =>
      have hh : ((preprocess s).drop start).head? = some a := by rw [hcase]; rfl
      rw [List.head?_drop, List.getElem?_eq_getElem hlt, hget] at hh
      obtain rfl : '\x7b' = a := by injection hh
      exact ⟨u', rfl⟩
  obtain ⟨u', hu'⟩ := hu_cons
  have hcount_rb : ((preprocess s).drop start).count '\x7d' = 0 := by
    rw [List.count_eq_zero]
    intro hmem
    exact h2 (List.mem_of_mem_drop hmem)
  have hbase : (acBase ((preprocess s).drop start)).count '\x7d' = 0 ∧
      0 < (acBase ((preprocess s).drop start)).count '\x7b' := by
    cases hrc : rfindIdx (fun c => c = ',') ((preprocess s).drop start) with
    | none =>
      simp only [acBase, hrc]
      refine ⟨hcount_rb, ?_⟩
      rw [List.count_pos_iff, hu']
      exact List.mem_cons_self _ _
    | some i =>
      simp only [acBase, hrc]
      split_ifs with hcond
      · constructor
        · exact Nat.eq_zero_of_le_zero
            (hcount_rb ▸ (List.take_sublist i _).count_le '\x7d')
        · obtain ⟨hlt2, hel⟩ := rfindIdx_spec _ _ _ hrc
          have hi : i ≠ 0 := by
            intro h0
            subst h0
            rw [List.get_eq_getElem] at hel
            simp only [hu'] at hel
            simp at hel
          obtain ⟨k, rfl⟩ := Nat.exists_eq_succ_of_ne_zero hi
          rw [hu', List.take_succ_cons, List.count_pos_iff]
          exact List.mem_cons_self _ _
      · refine ⟨hcount_rb, ?_⟩
        rw [List.count_pos_iff, hu']
        exact List.mem_cons_self _ _
  obtain ⟨hb0, hb1⟩ := hbase
  have hout_ne : auto_complete_json ((preprocess s).drop start) ≠ [] := by
    unfold auto_complete_json
    intro hemp
    rw [List.append_assoc, List.append_eq_nil] at hemp
    have h0 := hemp.1
    rw [h0] at hb1
    simp at hb1
  refine ⟨auto_complete_json ((preprocess s).drop start), ?_, ?_, ?_⟩
  · unfold extract_json_string
    rw [if_neg hs]
    simp only [hstart, hrf]
    rw [if_neg hout_ne]
  · unfold auto_complete_json
    simp [List.count_append, List.count_replicate, hb0]
    try omega
  · unfold auto_complete_json
    simp [List.count_append, List.count_replicate]
    try omega

theorem C1_witness :
    '\x7b' ∈ preprocess exC1 ∧ '\x7d' ∉ preprocess exC1 ∧
    (∃ out, extract_json_string exC1 = some out ∧
      out.count '\x7b' = out.count '\x7d' ∧ out.count '[' ≤ out.count ']') :=
  ⟨by decide, by decide, C1_truncated_amended exC1 (by decide) (by decide)⟩

/-! ### C3: totality and typing of the schema normaliser -/

theorem dictGet_dictSet_self (k : String) (v : Json) (d : List (String × Json)) :
    dictGet k (dictSet k v d) = some v := by
  induction d with
  | nil => simp [dictGet, dictSet]
  | cons kv rest ih =>
    obtain ⟨k', v'⟩ := kv
    by_cases h : k' = k <;> simp [dictGet, dictSet, h, ih]

theorem dictGet_dictSet_ne (k k' : String) (hne : k ≠ k') (v : Json)
    (d : List (String × Json)) : dictGet k (dictSet k' v d) = dictGet k d := by
  induction d with
  | nil => simp [dictGet, dictSet, Ne.symm hne]
  | cons kv rest ih =>
    obtain ⟨k'', v''⟩ := kv
    by_cases h : k'' = k'
    · subst h
      have h2 : k'' ≠ k := fun hc => hne (hc ▸ rfl)
      simp [dictGet, dictSet, h2]
    · simp [dictGet, dictSet, h, ih]

theorem dictGet_ensureList_ne (k k' : String) (hne : k ≠ k') (d : List (String × Json)) :
    dictGet k (ensureList k' d) = dictGet k d := by
  unfold ensureList
  cases h : dictGet k' d with
  | none => simp [dictGet_dictSet_ne k k' hne]
  | some v => cases v <;> simp [dictGet_dictSet_ne k k' hne]

theorem ensureList_self (k : String) (d : List (String × Json)) :
    ∃ xs, dictGet k (ensureList k d) = some (.arr xs) := by
  unfold ensureList
  cases h : dictGet k d with
  | none => exact ⟨[], dictGet_dictSet_self k _ d⟩
  | some v =>
    cases v with
    | arr xs => exact ⟨xs, h⟩
    | null => exact ⟨[], dictGet_dictSet_self k _ d⟩
    | bool b => exact ⟨[], dictGet_dictSet_self k _ d⟩
    | num n => exact ⟨[], dictGet_dictSet_self k _ d⟩
    | str s => exact ⟨[], dictGet_dictSet_self k _ d⟩
    | obj f => exact ⟨[], dictGet_dictSet_self k _ d⟩

theorem vNumField_self (k : String) (d : List (String × Json)) :
    ∃ n : ℤ, dictGet k (vNumField k d) = some (.num n) := by
  unfold vNumField
  cases h : dictGet k d with
  | none => exact ⟨0, dictGet_dictSet_self k _ d⟩
  | some v =>
    by_cases hn : v.isNull = true
    · exact ⟨0, by simp [hn, dictGet_dictSet_self]⟩
    · exact ⟨pyToIntOr0 v, by simp [hn, dictGet_dictSet_self]⟩

theorem vNumField_ne (k k' : String) (hne : k ≠ k') (d : List (String × Json)) :
    dictGet k (vNumField k' d) = dictGet k d := by
  unfold vNumField
  cases h : dictGet k' d with
  | none => simp [dictGet_dictSet_ne k k' hne]
  | some v =>
    by_cases hn : v.isNull = true <;> simp [hn, dictGet_dictSet_ne k k' hne]

theorem validateSkillsList_ok (l : List Json) :
    ∀ e ∈ validateSkillsList l, skillEntryOK e := by
  intro e he
  unfold validateSkillsList at he
  rw [List.mem_filterMap] at he
  obtain ⟨a, -, ha⟩ := he
  cases a with
  | obj d =>
    cases hn : dictGet "name" d with
    | none =>
      simp only [hn] at ha
      exact absurd ha (by simp)
    | some v =>
      simp only [hn] at ha
      by_cases ht : jsonTruthy v = true
      · rw [if_pos ht] at ha
        obtain rfl : Json.obj d = e := by injection ha
        exact ⟨d, rfl, v, hn, ht⟩
      · rw [if_neg ht] at ha
        exact absurd ha (by simp)
  | str s =>
    simp only at ha
    by_cases ht : pyStripS s ≠ ""
    · rw [if_pos ht] at ha
      obtain rfl : Json.obj [("name", Json.str (pyStripS s))] = e := by injection ha
      refine ⟨_, rfl, Json.str (pyStripS s), by simp [dictGet], ?_⟩
      simpa [jsonTruthy] using ht
    · rw [if_neg ht] at ha
      exact absurd ha (by simp)
  | null => exact absurd ha (by simp)
  | bool b => exact absurd ha (by simp)
  | num n => exact absurd ha (by simp)
  | arr xs => exact absurd ha (by simp)

theorem vResumeSkills_self (d : List (String × Json)) :
    ∃ xs, dictGet "skills" (vResumeSkills d) = some (.arr xs) ∧
      ∀ e ∈ xs, skillEntryOK e := by
  unfold vResumeSkills
  cases h : dictGet "skills" d with
  | none => exact ⟨[], dictGet_dictSet_self _ _ d, by simp⟩
  | some v =>
    cases v with
    | arr l =>
      exact ⟨validateSkillsList l, dictGet_dictSet_self _ _ d, validateSkillsList_ok l⟩
    | null => exact ⟨[], dictGet_dictSet_self _ _ d, by simp⟩
    | bool b => exact ⟨[], dictGet_dictSet_self _ _ d, by simp⟩
    | num n => exact ⟨[], dictGet_dictSet_self _ _ d, by simp⟩
    | str s => exact ⟨[], dictGet_dictSet_self _ _ d, by simp⟩
    | obj f => exact ⟨[], dictGet_dictSet_self _ _ d, by simp⟩

theorem vResumeSkills_ne (k : String) (hne : k ≠ "skills") (d : List (String × Json)) :
    dictGet k (vResumeSkills d) = dictGet k d := by
  unfold vResumeSkills
  cases h : dictGet "skills" d with
  | none => simp [dictGet_dictSet_ne k _ hne]
  | some v => cases v <;> simp [dictGet_dictSet_ne k _ hne]

theorem validateStrSkill_ok (l : List Json) :
    ∀ e ∈ l.filterMap validateStrSkill, ∃ s : String, e = .str s ∧ s ≠ "" := by
  intro e he
  rw [List.mem_filterMap] at he
  obtain ⟨a, -, ha⟩ := he
  unfold validateStrSkill at ha
  by_cases hc : jsonTruthy a = true ∧ pyStripS (pyStr a) ≠ ""
  · rw [if_pos hc] at ha
    obtain rfl : Json.str (pyStripS (pyStr a)) = e := by injection ha
    exact ⟨_, rfl, hc.2⟩
  · rw [if_neg hc] at ha
    exact absurd ha (by simp)

theorem vListFieldStr_self (k : String) (d : List (String × Json)) :
    ∃ xs, dictGet k (vListFieldStr k d) = some (.arr xs) ∧
      ∀ e ∈ xs, ∃ s : String, e = .str s ∧ s ≠ "" := by
  unfold vListFieldStr
  cases h : dictGet k d with
  | none => exact ⟨[], dictGet_dictSet_self _ _ d, by simp⟩
  | some v =>
    cases v with
    | arr l =>
      exact ⟨l.filterMap validateStrSkill, dictGet_dictSet_self _ _ d, validateStrSkill_ok l⟩
    | null => exact ⟨[], dictGet_dictSet_self _ _ d, by simp⟩
    | bool b => exact ⟨[], dictGet_dictSet_self _ _ d, by simp⟩
    | num n => exact ⟨[], dictGet_dictSet_self _ _ d, by simp⟩
    | str s => exact ⟨[], dictGet_dictSet_self _ _ d, by simp⟩
    | obj f => exact ⟨[], dictGet_dictSet_self _ _ d, by simp⟩

theorem vListFieldStr_ne (k k' : String) (hne : k ≠ k') (d : List (String × Json)) :
    dictGet k (vListFieldStr k' d) = dictGet k d := by
  unfold vListFieldStr
  cases h : dictGet k' d with
  | none => simp [dictGet_dictSet_ne k k' hne]
  | some v => cases v <;> simp [dictGet_dictSet_ne k k' hne]

/-- A field that is present with a non-null value stays so through the
defaults merge, since the merge only writes non-null values over a
defaults dict that already carries the field non-null. -/
theorem mergeDefaults_present (t : DocType) (data : List (String × Json)) (k : String)
    (h : ∃ v, dictGet k (get_default_structure t) = some v ∧ v.isNull = false) :
    ∃ v, dictGet k (mergeDefaults t data) = some v ∧ v.isNull = false := by
  unfold mergeDefaults
  have main : ∀ (l : List (String × Json)) (acc : List (String × Json)),
      (∃ v, dictGet k acc = some v ∧ v.isNull = false) →
      ∃ v, dictGet k (l.foldl
        (fun acc kv => if kv.2.isNull then acc else dictSet kv.1 kv.2 acc) acc) = some v ∧
        v.isNull = false := by
    intro l
    induction l with
    | nil => intro acc hacc; exact hacc
    | cons kv rest ih =>
      intro acc hacc
      simp only [List.foldl]
      apply ih
      by_cases hv : kv.2.isNull = true
      · simpa [hv] using hacc
      · rw [if_neg hv]
        by_cases hk : kv.1 = k
        · subst hk
          exact ⟨kv.2, dictGet_dictSet_self _ _ acc, by simpa using hv⟩
        · rw [dictGet_dictSet_ne k kv.1 (fun hc => hk hc.symm)]
          exact hacc
  exact main data _ h

/-- C3 (counterexample): a parsed resume object that already carries the
four required fields is passed through without the defaults merge, so
the schema-declared `certifications` field is absent from the normalised
result — the claim that every schema-declared field is always present
fails. -/
theorem C3_counterexample :
    "certifications" ∈ (get_default_structure .resume).map Prod.fst ∧
    dictGet "certifications" (parse_with_validation (some exC3) .resume) = none := by
  exact ⟨by decide, rfl⟩

/-- C3 (amended): normalisation is total — for every parse outcome
(failure, the empty object, or any object) it returns a record — and the
result always carries the *required* fields, type-correct where
validated: role/jobTitle present and non-null, the year count an
integer, the list fields lists of well-formed entries. Fields outside
the required set (e.g. `certifications`, `summary`) may be absent. -/
theorem C3_normalizer_amended (data : Option (List (String × Json))) :
    schemaOKResume (parse_with_validation data .resume) ∧
    schemaOKJD (parse_with_validation data .jd) := by
  have hdefR : schemaOKResume (get_default_structure .resume) := by
    refine ⟨⟨.str "Not extracted", rfl, rfl⟩, ⟨0, rfl⟩, ⟨[], rfl, by simp⟩, ⟨[], rfl⟩, ⟨[], rfl⟩⟩
  have hdefJ : schemaOKJD (get_default_structure .jd) := by
    refine ⟨⟨.str "Not extracted", rfl, rfl⟩, ⟨0, rfl⟩, ⟨[], rfl, by simp⟩, ⟨[], rfl, by simp⟩⟩
  have hvalR : ∀ d : List (String × Json),
      (∃ v, dictGet "role" d = some v ∧ v.isNull = false) →
      schemaOKResume (validateResume d) := by
    intro d hrole
    unfold validateResume
    refine ⟨?_, ?_, ?_, ?_, ?_⟩
    · rw [dictGet_ensureList_ne _ _ (by decide), dictGet_ensureList_ne _ _ (by decide),
        vResumeSkills_ne _ (by decide), vNumField_ne _ _ (by decide)]
      exact hrole
    · rw [dictGet_ensureList_ne _ _ (by decide), dictGet_ensureList_ne _ _ (by decide),
        vResumeSkills_ne _ (by decide)]
      exact vNumField_self _ _
    · obtain ⟨xs, hxs, hok⟩ := vResumeSkills_self (vNumField "totalYearsExperience" d)
      refine ⟨xs, ?_, hok⟩
      rw [dictGet_ensureList_ne _ _ (by decide), dictGet_ensureList_ne _ _ (by decide)]
      exact hxs
    · obtain ⟨xs, hxs⟩ := ensureList_self "education"
        (vResumeSkills (vNumField "totalYearsExperience" d))
      refine ⟨xs, ?_⟩
      rw [dictGet_ensureList_ne _ _ (by decide)]
      exact hxs
    · exact ensureList_self _ _
  have hvalJ : ∀ d : List (String × Json),
      (∃ v, dictGet "jobTitle" d = some v ∧ v.isNull = false) →
      schemaOKJD (validateJD d) := by
    intro d htitle
    unfold validateJD
    refine ⟨?_, ?_, ?_, ?_⟩
    · rw [vListFieldStr_ne _ _ (by decide), vListFieldStr_ne _ _ (by decide),
        vNumField_ne _ _ (by decide)]
      exact htitle
    · rw [vListFieldStr_ne _ _ (by decide), vListFieldStr_ne _ _ (by decide)]
      exact vNumField_self _ _
    · obtain ⟨xs, hxs, hok⟩ := vListFieldStr_self "requiredSkills"
        (vNumField "minExperienceYears" d)
      refine ⟨xs, ?_, hok⟩
      rw [vListFieldStr_ne _ _ (by decide)]
      exact hxs
    · exact vListFieldStr_self _ _
  have hpresent : ∀ (t : DocType) (d : List (String × Json)) (k : String),
      k ∈ required_fields t →
      ((required_fields t).any (fun f => fieldMissing d f) = false) →
      ∃ v, dictGet k d = some v ∧ v.isNull = false := by
    intro t d k hk hany
    rw [List.any_eq_false] at hany
    have hkf := hany k hk
    unfold fieldMissing at hkf
    cases hval : dictGet k d with
    | none => rw [hval] at hkf; exact absurd rfl hkf
    | some v =>
      rw [hval] at hkf
      refine ⟨v, rfl, ?_⟩
      simpa using hkf
  constructor
  · -- Resume
    cases data with
    | none => exact hdefR
    | some d =>
      by_cases hemp : d.isEmpty = true
      · simpa [parse_with_validation, hemp] using hdefR
      · simp only [parse_with_validation, hemp, Bool.false_eq_true, if_false]
        by_cases hmiss : (required_fields .resume).any (fun f => fieldMissing d f) = true
        · simp only [hmiss, if_true, validate_data_types]
          exact hvalR _ (mergeDefaults_present _ _ _ ⟨.str "Not extracted", rfl, rfl⟩)
        · simp only [Bool.not_eq_true] at hmiss
          simp only [hmiss, Bool.false_eq_true, if_false, validate_data_types]
          exact hvalR _ (hpresent .resume d "role" (by decide) hmiss)
  · -- Job Description
    cases data with
    | none => exact hdefJ
    | some d =>
      by_cases hemp : d.isEmpty = true
      · simpa [parse_with_validation, hemp] using hdefJ
      · simp only [parse_with_validation, hemp, Bool.false_eq_true, if_false]
        by_cases hmiss : (required_fields .jd).any (fun f => fieldMissing d f) = true
        · simp only [hmiss, if_true, validate_data_types]
          exact hvalJ _ (mergeDefaults_present _ _ _ ⟨.str "Not extracted", rfl, rfl⟩)
        · simp only [Bool.not_eq_true] at hmiss
          simp only [hmiss, Bool.false_eq_true, if_false, validate_data_types]
          exact hvalJ _ (hpresent .jd d "jobTitle" (by decide) hmiss)

/-! ### C7: the experience aggregator never double-counts

The total the aggregator reports equals the cardinality of the *union*
of the surviving day intervals, which is exactly the no-double-counting
property: overlapping days are counted once. -/

theorem keptOne_valid (today : ℤ) (e? : Option ExpEntry) (p : ℤ × ℤ)
    (h : keptOne today e? = some p) : p.1 + 30 ≤ p.2 := by
  cases e? with
  | none => exact absurd h (by simp [keptOne])
  | some e =>
    simp only [keptOne] at h
    cases hs : e.startDate with
    | none =>
      simp only [hs] at h
      exact absurd h (by simp)
    | some s =>
      simp only [hs] at h
      split_ifs at h with h1 h2 h3
      obtain rfl : (s, e.endDate.getD today) = p := by injection h
      simp only [not_or, not_lt] at h3
      simp only
      omega

theorem keptPeriods_valid (today : ℤ) (entries : List (Option ExpEntry)) :
    ∀ p ∈ keptPeriods today entries, p.1 + 30 ≤ p.2 := by
  intro p hp
  unfold keptPeriods at hp
  rw [List.mem_filterMap] at hp
  obtain ⟨e?, -, he⟩ := hp
  exact keptOne_valid today e? p he

theorem insertByStart_perm (p : ℤ × ℤ) (l : List (ℤ × ℤ)) :
    List.Perm (insertByStart p l) (p :: l) := by
  induction l with
  | nil => exact List.Perm.refl _
  | cons q qs ih =>
    unfold insertByStart
    by_cases h : p.1 < q.1
    · rw [if_pos h]
    · rw [if_neg h]
      exact (ih.cons q).trans (List.Perm.swap p q qs)

theorem sortByStart_perm (l : List (ℤ × ℤ)) : List.Perm (sortByStart l) l := by
  have aux : ∀ (l acc : List (ℤ × ℤ)),
      List.Perm (l.foldl (fun acc p => insertByStart p acc) acc) (l ++ acc) := by
    intro l
    induction l with
    | nil => intro acc; exact List.Perm.refl _
    | cons p rest ih =>
      intro acc
      simp only [List.foldl]
      exact ((ih _).trans (List.Perm.append_left rest (insertByStart_perm p acc))).trans
        List.perm_middle
  simpa using aux l []

theorem insertByStart_sorted (p : ℤ × ℤ) (l : List (ℤ × ℤ))
    (h : List.Sorted (fun a b : ℤ × ℤ => a.1 ≤ b.1) l) :
    List.Sorted (fun a b : ℤ × ℤ => a.1 ≤ b.1) (insertByStart p l) := by
  induction l with
  | nil => simp [insertByStart]
  | cons q qs ih =>
    rw [List.sorted_cons] at h
    unfold insertByStart
    by_cases hpq : p.1 < q.1
    · rw [if_pos hpq, List.sorted_cons]
      refine ⟨?_, List.sorted_cons.mpr h⟩
      intro b hb
      rcases List.mem_cons.mp hb with rfl | hb
      · omega
      · have := h.1 b hb
        omega
    · rw [if_neg hpq, List.sorted_cons]
      refine ⟨?_, ih h.2⟩
      intro b hb
      rcases List.mem_cons.mp ((insertByStart_perm p qs).mem_iff.mp hb) with rfl | hb
      · omega
      · exact h.1 b hb

theorem sortByStart_sorted (l : List (ℤ × ℤ)) :
    List.Sorted (fun a b : ℤ × ℤ => a.1 ≤ b.1) (sortByStart l) := by
  have aux : ∀ (l acc : List (ℤ × ℤ)),
      List.Sorted (fun a b : ℤ × ℤ => a.1 ≤ b.1) acc →
      List.Sorted (fun a b : ℤ × ℤ => a.1 ≤ b.1)
        (l.foldl (fun acc p => insertByStart p acc) acc) := by
    intro l
    induction l with
    | nil => intro acc hacc; exact hacc
    | cons p rest ih =>
      intro acc hacc
      exact ih _ (insertByStart_sorted p acc hacc)
  exact aux l [] List.sorted_nil

theorem mem_daysOf (x : ℤ) (l : List (ℤ × ℤ)) :
    x ∈ daysOf l ↔ ∃ p ∈ l, p.1 ≤ x ∧ x < p.2 := by
  induction l with
  | nil => simp [daysOf]
  | cons p ps ih =>
    simp only [daysOf, List.foldr] at ih ⊢
    rw [Finset.mem_union, Finset.mem_Ico, ih]
    simp only [List.mem_cons]
    constructor
    · rintro (h | ⟨q, hq, h1, h2⟩)
      · exact ⟨p, Or.inl rfl, h.1, h.2⟩
      · exact ⟨q, Or.inr hq, h1, h2⟩
    · rintro ⟨q, hq | hq, h1, h2⟩
      · subst hq; exact Or.inl ⟨h1, h2⟩
      · exact Or.inr ⟨q, hq, h1, h2⟩

theorem daysOf_perm {l l' : List (ℤ × ℤ)} (h : List.Perm l l') : daysOf l = daysOf l' := by
  induction h with
  | nil => rfl
  | cons x _ ih =>
    simp only [daysOf, List.foldr] at ih ⊢
    rw [ih]
  | swap x y l =>
    simp only [daysOf, List.foldr]
    rw [← Finset.union_assoc, ← Finset.union_assoc,
      Finset.union_comm (Finset.Ico y.1 y.2) (Finset.Ico x.1 x.2)]
  | trans _ _ ih1 ih2 => rw [ih1, ih2]

theorem mergeLoop_card (l : List (ℤ × ℤ)) :
    ∀ cur : ℤ × ℤ, cur.1 ≤ cur.2 → (∀ p ∈ l, p.1 ≤ p.2) →
      (∀ p ∈ l, cur.1 ≤ p.1) →
      List.Sorted (fun a b : ℤ × ℤ => a.1 ≤ b.1) l →
      ((mergeLoop cur l).map (fun (p : ℤ × ℤ) => p.2 - p.1)).sum =
        ((daysOf (cur :: l)).card : ℤ) := by
  induction l with
  | nil =>
    intro cur hcur _ _ _
    have hd : daysOf [cur] = Finset.Ico cur.1 cur.2 := by
      simp [daysOf]
    simp only [mergeLoop, List.map_cons, List.map_nil, List.sum_cons, List.sum_nil, hd,
      Int.card_Ico]
    omega
  | cons p ps ih =>
    intro cur hcur hvalid hge hsorted
    rw [List.sorted_cons] at hsorted
    unfold mergeLoop
    by_cases hle : p.1 ≤ cur.2
    · rw [if_pos hle]
      have hp1 : cur.1 ≤ p.1 := hge p (List.mem_cons_self p ps)
      have hp2 : p.1 ≤ p.2 := hvalid p (List.mem_cons_self p ps)
      have IH := ih (cur.1, max cur.2 p.2)
        (by simp only; omega)
        (fun q hq => hvalid q (List.mem_cons_of_mem p hq))
        (fun q hq => hge q (List.mem_cons_of_mem p hq))
        hsorted.2
      rw [IH]
      congr 2
      simp only [daysOf, List.foldr]
      rw [← Finset.union_assoc]
      congr 1
      ext x
      simp only [Finset.mem_Ico, Finset.mem_union]
      omega
    · rw [if_neg hle]
      have hp2 : p.1 ≤ p.2 := hvalid p (List.mem_cons_self p ps)
      have IH := ih p hp2
        (fun q hq => hvalid q (List.mem_cons_of_mem p hq))
        (fun q hq => hsorted.1 q hq)
        hsorted.2
      have hdisj : Disjoint (Finset.Ico cur.1 cur.2) (daysOf (p :: ps)) := by
        rw [Finset.disjoint_left]
        intro x hx hx2
        rw [Finset.mem_Ico] at hx
        rw [mem_daysOf] at hx2
        obtain ⟨q, hq, hq1, hq2⟩ := hx2
        have hq0 : p.1 ≤ q.1 := by
          rcases List.mem_cons.mp hq with rfl | hq
          · exact le_refl _
          · exact hsorted.1 q hq
        omega
      have hsplit : daysOf (cur :: p :: ps) =
          Finset.Ico cur.1 cur.2 ∪ daysOf (p :: ps) := rfl
      rw [List.map_cons, List.sum_cons, IH, hsplit,
        Finset.card_union_of_disjoint hdisj, Int.card_Ico]
      push_cast
      omega

theorem mergeAll_card (l : List (ℤ × ℤ)) (hvalid : ∀ p ∈ l, p.1 ≤ p.2)
    (hsorted : List.Sorted (fun a b : ℤ × ℤ => a.1 ≤ b.1) l) :
    ((mergeAll l).map (fun (p : ℤ × ℤ) => p.2 - p.1)).sum = ((daysOf l).card : ℤ) := by
  cases l with
  | nil => simp [mergeAll, daysOf]
  | cons p ps =>
    rw [List.sorted_cons] at hsorted
    exact mergeLoop_card ps p (hvalid p (List.mem_cons_self p ps))
      (fun q hq => hvalid q (List.mem_cons_of_mem p hq))
      (fun q hq => hsorted.1 q hq) hsorted.2

/-- C7: the aggregator's result is exactly
(D / 365, (D mod 365) / 30) where D is the number of days in the *union*
of the surviving intervals — overlapping intervals are never
double-counted — and on the specification's example ([2018-01, 2020-01]
overlapping [2019-01, 2021-01]) it reports 3 years 0 months, not 4. -/
theorem C7_aggregator (today : ℤ) (entries : List (Option ExpEntry)) :
    calculate_experience_from_details today entries =
      ((daysOf (keptPeriods today entries)).card / 365,
       ((daysOf (keptPeriods today entries)).card % 365) / 30) ∧
    calculate_experience_from_details 3000 exC7 = (3, 0) := by
  constructor
  · unfold calculate_experience_from_details
    by_cases he : entries.isEmpty = true
    · rw [if_pos he]
      obtain rfl : entries = [] := List.isEmpty_iff.mp he
      simp [keptPeriods, daysOf]
    · rw [if_neg he]
      by_cases hkp : (keptPeriods today entries).isEmpty = true
      · rw [if_pos hkp]
        rw [List.isEmpty_iff.mp hkp]
        simp [daysOf]
      · rw [if_neg hkp]
        have hperm := sortByStart_perm (keptPeriods today entries)
        have hvalid : ∀ p ∈ sortByStart (keptPeriods today entries), p.1 ≤ p.2 := by
          intro p hp
          have := keptPeriods_valid today entries p (hperm.mem_iff.mp hp)
          omega
        have hsum := mergeAll_card _ hvalid (sortByStart_sorted _)
        rw [daysOf_perm hperm] at hsum
        have htd : ((mergeAll (sortByStart (keptPeriods today entries))).map
            (fun (p : ℤ × ℤ) => p.2 - p.1)).sum.toNat =
            (daysOf (keptPeriods today entries)).card := by omega
        simp only [htd]
  · decide

end S2P
